import Mathlib

/-!
Verification development for the fake-gpt chat orchestration backend.

The repository implements a tool-calling orchestration loop in several
near-duplicate deployment targets:
  - an express server (`/api/chat`, `/api/chat/continue`, `/api/chat-stream`),
  - netlify functions `chat.js` (two-call variant) and `chat-continue.js`
    (full loop after clarification),
  - the streaming edge function `chat-stream.ts`.

This file shallowly embeds the provider-response parsing (`extractResponse`),
the tool executors (`performWebSearch` / `performWebFetch`), the non-streaming
orchestration loop, the netlify `chat.js` two-call handler, the
clarification-resume transcript reconstruction, and the streaming loop
(`processAzureStream` plus the event-emitting driver).

External effects are oracles:
  - `JsonParse` stands for `JSON.parse` applied to a tool call's `arguments`
    string, returning `none` when the string is not valid JSON;
  - model responses are supplied as a list consumed one per gateway call
    (an `Except` value models a thrown non-success HTTP status);
  - tool executors are pure functions from the argument the code passes to
    the already-serialized payload the code appends to the transcript.
-/

/-- Content part of a provider `message` output item; the code only ever
inspects parts whose `type` is `output_text`. -/
inductive ContentPart where
  | outputText (text : String)
  | otherPart (tag : String)
deriving DecidableEq, Repr

/-- Provider output-list item as consumed by `extractResponse`: `reasoning`
items carry a summary list, `function_call` items carry `call_id`, `name`
and an optional raw `arguments` string (absent or empty falls back to the
empty JSON object), `message` items carry content parts. -/
inductive OutputItem where
  | reasoning (summary : List String)
  | functionCall (call_id : String) (name : String) (arguments : Option String)
  | message (content : List ContentPart)
  | otherItem (tag : String)
deriving DecidableEq, Repr

/-- Provider response body; an absent `output` field is modelled by `[]`. -/
structure ProviderResponse where
  output : List OutputItem
deriving DecidableEq, Repr

/-- Clarify question as produced by the model (`questions` array items). -/
structure ClarifyQuestion where
  id : String
  question : String
  qtype : String
  options : Option (List String)
  required : Option Bool
deriving DecidableEq, Repr

/-- Parsed tool-call arguments: only the fields the orchestration code ever
reads (`query`, `url`, `questions`, `objective`). -/
structure ToolArgs where
  query : Option String
  url : Option String
  questions : Option (List ClarifyQuestion)
  objective : Option String
deriving DecidableEq, Repr

/-- Oracle for `JSON.parse` on an arguments string: `none` models a throw on
invalid JSON. -/
def JsonParse : Type := String → Option ToolArgs

/-- Serialization of the empty JSON object, the fallback in
`JSON.parse(fc.arguments || '\x7b\x7d')`. -/
def emptyObj : String := "\x7b\x7d"

/-- String actually passed to `JSON.parse`: `fc.arguments || '\x7b\x7d'`
(JavaScript treats an absent or empty string as falsy). -/
def argSource (a : Option String) : String :=
  match a with
  | none => emptyObj
  | some s => if s = "" then emptyObj else s

/-- Normalized tool call produced by `extractResponse`. -/
structure ToolCall where
  id : String
  name : String
  arguments : ToolArgs
deriving DecidableEq, Repr

/-- Normalized gateway result (`extractResponse` return value). -/
structure Extracted where
  responseText : String
  reasoningSummary : List String
  toolCalls : List ToolCall
  rawOutputItems : List OutputItem
deriving DecidableEq, Repr

def isReasoningItem : OutputItem → Bool
  | .reasoning _ => true
  | _ => false

def isFunctionCallItem : OutputItem → Bool
  | .functionCall _ _ _ => true
  | _ => false

/-- Filter predicate for the raw pass-through items
(`item.type === 'reasoning' || item.type === 'function_call'`). -/
def isRawItem (it : OutputItem) : Bool :=
  isReasoningItem it || isFunctionCallItem it

def isMessageItem : OutputItem → Bool
  | .message _ => true
  | _ => false

/-- Raw pass-through items kept for follow-up requests. -/
def rawItemsOf (data : ProviderResponse) : List OutputItem :=
  data.output.filter isRawItem

/-- Reasoning summary surfaced for display: the first `reasoning` item's
summary, when that summary is non-empty. -/
def reasoningOf (data : ProviderResponse) : List String :=
  match data.output.find? isReasoningItem with
  | some (.reasoning s) => if s.isEmpty then [] else s
  | _ => []

def isOutputTextPart : ContentPart → Bool
  | .outputText _ => true
  | _ => false

/-- Response text: the first `output_text` part of the first `message` item. -/
def textOf (data : ProviderResponse) : String :=
  match data.output.find? isMessageItem with
  | some (.message content) =>
      match content.find? isOutputTextPart with
      | some (.outputText t) => t
      | _ => ""
  | _ => ""

/-- Map over the filtered `function_call` items, throwing at the first
arguments string `JSON.parse` rejects (items of any other kind cannot
occur after the filter and are passed over). -/
def toolCallsGo (parse : JsonParse) : List OutputItem →
    Except String (List ToolCall)
  | [] => .ok []
  | it :: rest =>
      match it with
      | .functionCall cid nm args =>
          match parse (argSource args) with
          | none => .error "Unexpected token in JSON"
          | some a =>
              match toolCallsGo parse rest with
              | .error m => .error m
              | .ok tcs => .ok (⟨cid, nm, a⟩ :: tcs)
      | _ => toolCallsGo parse rest

/-- Parse every `function_call` item into a `ToolCall`; a failing
`JSON.parse` on some arguments string makes the whole extraction throw. -/
def toolCallsOf (parse : JsonParse) (data : ProviderResponse) :
    Except String (List ToolCall) :=
  toolCallsGo parse (data.output.filter isFunctionCallItem)

/-- Embedding of `extractResponse` (identical in chat.js, chat-continue.js,
chat-stream.ts and the express server): returns the normalized result, or
an error when `JSON.parse` throws on some function call's arguments. -/
def extractResponse (parse : JsonParse) (data : ProviderResponse) :
    Except String Extracted :=
  match toolCallsOf parse data with
  | .error m => .error m
  | .ok tcs => .ok ⟨textOf data, reasoningOf data, tcs, rawItemsOf data⟩

/-- Outcome of the outbound HTTP call inside a tool executor: a parsed
success body, a non-success status, or a thrown exception (network error). -/
inductive HttpOutcome (A : Type) where
  | ok (body : A)
  | httpError (status : Nat)
  | exn (msg : String)
deriving DecidableEq, Repr

/-- Value a tool executor hands back to the loop: either the JSON payload of
a successful call, or an object carrying an `error` field. -/
inductive ExecResult (A : Type) where
  | payload (data : A)
  | errorObj (reason : String)
deriving DecidableEq, Repr

def ExecResult.isErrorObj : ExecResult A → Bool
  | .errorObj _ => true
  | _ => false

/-- Embedding of `performWebSearch`: missing `PARALLEL_API_KEY`, a
non-success status and a thrown exception each become an error object;
a success returns the parsed body. -/
def performWebSearch (apiKey : Option String) (outcome : HttpOutcome A) :
    ExecResult A :=
  match apiKey with
  | none => .errorObj "Search API not configured"
  | some _ =>
      match outcome with
      | .ok d => .payload d
      | .httpError s => .errorObj ("Search failed: " ++ toString s)
      | .exn m => .errorObj m

/-- Embedding of `performWebFetch`: same error contract; a success returns
the pair of the requested url and the fetched content. -/
def performWebFetch (url : String) (apiKey : Option String)
    (outcome : HttpOutcome String) : ExecResult (String × String) :=
  match apiKey with
  | none => .errorObj "Web fetch API not configured"
  | some _ =>
      match outcome with
      | .ok content => .payload (url, content)
      | .httpError s => .errorObj ("Fetch failed: " ++ toString s)
      | .exn m => .errorObj m

/-- Transcript entry of the input array resubmitted to the provider:
initial role-tagged messages, raw provider items pushed back verbatim, and
`function_call_output` tool results (payload kept as the serialized string
`JSON.stringify` produced). -/
inductive InputItem where
  | message (role : String) (text : String)
  | raw (item : OutputItem)
  | toolOutput (call_id : String) (output : String)
deriving DecidableEq, Repr

def isToolOutput : InputItem → Bool
  | .toolOutput _ _ => true
  | _ => false

/-- Payload an executor oracle returns to the loop: the serialized string
pushed as `function_call_output.output`, plus the count the code reads for
the streaming `tool_result` event (`results?.length` or `content?.length`). -/
structure ToolPayload where
  serialized : String
  count : Nat
deriving DecidableEq, Repr

/-- Executor invocation, recorded so that theorems can speak about which
tool executors actually ran in an iteration. -/
inductive ToolInvocation where
  | searchInv (query : Option String)
  | fetchInv (url : Option String)
deriving DecidableEq, Repr

/-- Items appended and executor invocations performed for one tool call in
the loop body: `web_search` and `web_fetch` each append exactly one
`function_call_output`; any other name appends nothing and runs nothing. -/
def toolOutputsFor (search fetch : Option String → ToolPayload)
    (tc : ToolCall) : List InputItem × List ToolInvocation :=
  if tc.name = "web_search" then
    ([.toolOutput tc.id (search tc.arguments.query).serialized],
     [.searchInv tc.arguments.query])
  else if tc.name = "web_fetch" then
    ([.toolOutput tc.id (fetch tc.arguments.url).serialized],
     [.fetchInv tc.arguments.url])
  else ([], [])

/-- Transcript items appended by the per-tool-call loop, in execution
order. -/
def execOutputs (search fetch : Option String → ToolPayload) :
    List ToolCall → List InputItem
  | [] => []
  | tc :: rest =>
      (toolOutputsFor search fetch tc).1 ++ execOutputs search fetch rest

/-- Executor invocations performed by the per-tool-call loop, in order. -/
def execLog (search fetch : Option String → ToolPayload) :
    List ToolCall → List ToolInvocation
  | [] => []
  | tc :: rest =>
      (toolOutputsFor search fetch tc).2 ++ execLog search fetch rest

/-- Model-gateway reply oracle: `Except.error` models the throw on a
non-success HTTP status from the provider. -/
def AzureReply : Type := Except String ProviderResponse

/-- Saved resumption token emitted with `pending_clarification`. -/
structure PendingContext where
  input : List InputItem
  rawOutputItems : List OutputItem
  clarifyCallId : String
  model : String
  reasoningEffort : String
deriving DecidableEq, Repr

/-- Result of one non-streaming orchestration turn: `complete` carries the
final text, accumulated reasoning and accumulated tool calls; `pending`
carries the clarify questions and the resumption token; `fatal` is the
caught error returned as a 500 body; `outOfFuel` marks exhaustion of the
response oracle while the code would have kept calling the gateway. -/
inductive ChatResult where
  | complete (response : String) (reasoning : List String)
      (allToolCalls : List ToolCall) (log : List ToolInvocation)
  | pending (ctx : PendingContext) (questions : Option (List ClarifyQuestion))
      (reasoning : List String) (log : List ToolInvocation)
  | fatal (msg : String) (log : List ToolInvocation)
  | outOfFuel
deriving DecidableEq, Repr

def isClarifyCall (tc : ToolCall) : Bool := tc.name = "clarify"

/-- Loop state at the top of one `while (toolCalls.length > 0)` iteration. -/
structure LoopSt where
  input : List InputItem
  responseText : String
  reasoning : List String
  toolCalls : List ToolCall
  rawItems : List OutputItem
  allToolCalls : List ToolCall
  log : List ToolInvocation
deriving DecidableEq, Repr

/-- Head of one `while (toolCalls.length > 0)` iteration: `complete` when
no tool calls remain, `pending` when a clarify call is among them (before
any executor runs), `none` when the iteration proceeds to tool
execution. -/
def chatBranch (model effort : String) (st : LoopSt) : Option ChatResult :=
  if st.toolCalls.isEmpty then
    some (.complete st.responseText st.reasoning st.allToolCalls st.log)
  else
    match st.toolCalls.find? isClarifyCall with
    | some c =>
        some (.pending ⟨st.input, st.rawItems, c.id, model, effort⟩
          c.arguments.questions st.reasoning st.log)
    | none => none

/-- Embedding of the orchestration `while` loop shared by the express
`/api/chat`, `/api/chat/continue` and netlify `chat-continue.js` handlers:
exit with `complete` when no tool calls remain; return `pending` when a
clarify call is among them; otherwise append the raw items and each tool
result, then consume the next gateway reply. -/
def chatLoop (parse : JsonParse) (search fetch : Option String → ToolPayload)
    (model effort : String) :
    List AzureReply → LoopSt → ChatResult
  | [], st =>
      match chatBranch model effort st with
      | some r => r
      | none => .outOfFuel
  | rep :: rest, st =>
      match chatBranch model effort st with
      | some r => r
      | none =>
          let input2 := st.input ++ st.rawItems.map InputItem.raw
            ++ execOutputs search fetch st.toolCalls
          let log2 := st.log ++ execLog search fetch st.toolCalls
          match rep with
          | .error m => .fatal m log2
          | .ok resp =>
              match extractResponse parse resp with
              | .error m => .fatal m log2
              | .ok e =>
                  chatLoop parse search fetch model effort rest
                    ⟨input2, e.responseText, st.reasoning ++ e.reasoningSummary,
                     e.toolCalls, e.rawOutputItems,
                     st.allToolCalls ++ e.toolCalls, log2⟩

/-- One whole non-streaming turn starting from an initial transcript: the
first gateway call followed by the tool-handling loop. -/
def chatTurn (parse : JsonParse) (search fetch : Option String → ToolPayload)
    (model effort : String) (replies : List AzureReply)
    (input0 : List InputItem) : ChatResult :=
  match replies with
  | [] => .outOfFuel
  | .error m :: _ => .fatal m []
  | .ok resp :: rest =>
      match extractResponse parse resp with
      | .error m => .fatal m []
      | .ok e =>
          chatLoop parse search fetch model effort rest
            ⟨input0, e.responseText, e.reasoningSummary, e.toolCalls,
             e.rawOutputItems, e.toolCalls, []⟩

/-- Transcript reconstruction performed by `chat-continue.js` and the
express continue endpoint: saved input, then the saved raw items, then one
`function_call_output` keyed to the saved clarify call identifier and
carrying the serialized answers. -/
def continueInput (ctx : PendingContext) (answersJson : String) :
    List InputItem :=
  ctx.input ++ ctx.rawOutputItems.map InputItem.raw
    ++ [InputItem.toolOutput ctx.clarifyCallId answersJson]

def isClarifyFunctionCall (it : OutputItem) : Bool :=
  match it with
  | .functionCall _ n _ => n = "clarify"
  | _ => false

/-- Call identifier `chat-stream.ts` uses in continue mode: the `call_id`
of the first clarify `function_call` found among the saved raw items when
that identifier is truthy, falling back to the saved `clarifyCallId`. -/
def actualCallId (ctx : PendingContext) : String :=
  match ctx.rawOutputItems.find? isClarifyFunctionCall with
  | some (.functionCall cid _ _) =>
      if cid = "" then ctx.clarifyCallId else cid
  | _ => ctx.clarifyCallId

/-- Transcript reconstruction performed by `chat-stream.ts` in continue
mode. -/
def continueInputStream (ctx : PendingContext) (answersJson : String) :
    List InputItem :=
  ctx.input ++ ctx.rawOutputItems.map InputItem.raw
    ++ [InputItem.toolOutput (actualCallId ctx) answersJson]

/-- A whole continue turn (`chat-continue.js`, express
`/api/chat/continue`): rebuild the transcript, then run the same loop with
the saved model and reasoning effort. -/
def continueTurn (parse : JsonParse)
    (search fetch : Option String → ToolPayload)
    (replies : List AzureReply) (ctx : PendingContext)
    (answersJson : String) : ChatResult :=
  chatTurn parse search fetch ctx.model ctx.reasoningEffort replies
    (continueInput ctx answersJson)

/-- Parsed server-sent event of the provider stream, as classified by
`processAzureStream`: reasoning-text deltas, content-text deltas, the final
full-response event (`response.done` / `response.completed`), or anything
else (unrecognized or unparsable lines, which are skipped). -/
inductive SSEItem where
  | reasoningDelta (delta : Option String)
  | contentDelta (delta : Option String)
  | respDone (resp : ProviderResponse)
  | otherEvt (tag : String)
deriving DecidableEq, Repr

/-- Event pushed to the client of the streaming endpoint. -/
inductive SEvent where
  | start
  | reasoningDeltaEvt (delta : String)
  | contentDeltaEvt (delta : String)
  | toolCallEvt (name : String) (query : Option String)
  | toolResultEvt (name : String) (resultCount : Nat)
  | clarifyEvt (questions : Option (List ClarifyQuestion)) (ctx : PendingContext)
  | doneEvt (reasoning : List String) (toolCalls : List (String × String))
  | errorEvt (msg : String)
deriving DecidableEq, Repr

/-- Value of `event.delta || ''`. -/
def deltaStr (d : Option String) : String :=
  match d with
  | some s => s
  | none => ""

/-- Accumulator of `processAzureStream`: the last final response seen, the
concatenated reasoning and content texts, and the delta events forwarded to
the client as they arrived. -/
structure StreamOut where
  fullResponse : Option ProviderResponse
  currentReasoningText : String
  currentContentText : String
  emitted : List SEvent
deriving DecidableEq, Repr

def processStreamGo : List SSEItem → StreamOut → StreamOut
  | [], acc => acc
  | it :: rest, acc =>
      match it with
      | .reasoningDelta d =>
          processStreamGo rest
            ⟨acc.fullResponse, acc.currentReasoningText ++ deltaStr d,
             acc.currentContentText,
             acc.emitted ++ [.reasoningDeltaEvt (deltaStr d)]⟩
      | .contentDelta d =>
          processStreamGo rest
            ⟨acc.fullResponse, acc.currentReasoningText,
             acc.currentContentText ++ deltaStr d,
             acc.emitted ++ [.contentDeltaEvt (deltaStr d)]⟩
      | .respDone r =>
          processStreamGo rest
            ⟨some r, acc.currentReasoningText, acc.currentContentText,
             acc.emitted⟩
      | .otherEvt _ => processStreamGo rest acc

/-- Embedding of `processAzureStream`: one pass over the event stream,
forwarding each delta and remembering the last final response. -/
def processStream (items : List SSEItem) : StreamOut :=
  processStreamGo items ⟨none, "", "", []⟩

/-- Stream-call oracle: `Except.error` models the throw on a non-success
HTTP status when opening the stream. -/
def StreamReply : Type := Except String (List SSEItem)

/-- Display pair for the `done` event:
`(tc.name, tc.arguments?.query || tc.arguments?.url || '')`. -/
def fmtToolCall (tc : ToolCall) : String × String :=
  (tc.name,
    match tc.arguments.query with
    | some q => if q = "" then deltaStr tc.arguments.url else q
    | none => deltaStr tc.arguments.url)

/-- Items appended and events emitted for one tool call of the streaming
loop body (the `tool_call` event, the executor run, the `tool_result`
event, the `function_call_output` push). -/
def streamToolStep (search fetch : Option String → ToolPayload)
    (tc : ToolCall) : List InputItem × List SEvent :=
  if tc.name = "web_search" then
    ([.toolOutput tc.id (search tc.arguments.query).serialized],
     [.toolCallEvt "web_search" tc.arguments.query,
      .toolResultEvt "web_search" (search tc.arguments.query).count])
  else if tc.name = "web_fetch" then
    ([.toolOutput tc.id (fetch tc.arguments.url).serialized],
     [.toolCallEvt "web_fetch" tc.arguments.url,
      .toolResultEvt "web_fetch" (fetch tc.arguments.url).count])
  else ([], [])

def streamExecItems (search fetch : Option String → ToolPayload) :
    List ToolCall → List InputItem
  | [] => []
  | tc :: rest =>
      (streamToolStep search fetch tc).1 ++ streamExecItems search fetch rest

def streamExecEvents (search fetch : Option String → ToolPayload) :
    List ToolCall → List SEvent
  | [] => []
  | tc :: rest =>
      (streamToolStep search fetch tc).2 ++ streamExecEvents search fetch rest

/-- Client-visible state of the streaming loop: the transcript, the events
pushed so far, `allToolCalls`, and `allReasoningSummary`. -/
structure StState where
  input : List InputItem
  events : List SEvent
  acc : List ToolCall
  reas : List String
deriving DecidableEq, Repr

/-- Result of a streaming turn: `finished` when the code closed the stream
after a terminal event; `outOfFuel` when the stream-reply oracle ran out
while the loop would have called the gateway again. -/
inductive StreamRes where
  | finished (events : List SEvent)
  | outOfFuel (events : List SEvent)
deriving DecidableEq, Repr

/-- Branch taken on a freshly extracted streaming response: `done` when no
tool calls remain, `clarify` (and stop) when a clarify call is present,
otherwise append raw items and tool results and continue. -/
def streamBranch (search fetch : Option String → ToolPayload)
    (model effort : String) (st : StState) (e : Extracted) :
    StreamRes ⊕ StState :=
  if e.toolCalls.isEmpty then
    .inl (.finished (st.events ++ [.doneEvt st.reas (st.acc.map fmtToolCall)]))
  else
    match e.toolCalls.find? isClarifyCall with
    | some c =>
        .inl (.finished (st.events ++
          [.clarifyEvt c.arguments.questions
            ⟨st.input, e.rawOutputItems, c.id, model, effort⟩]))
    | none =>
        .inr ⟨st.input ++ e.rawOutputItems.map InputItem.raw
                ++ streamExecItems search fetch e.toolCalls,
              st.events ++ streamExecEvents search fetch e.toolCalls,
              st.acc ++ e.toolCalls, st.reas⟩

/-- Embedding of the streaming `while (continueLoop)` loop of
`chat-stream.ts` and the express `/api/chat-stream`: open the stream,
forward deltas, fail the turn when no final response arrived, extract,
record the iteration's reasoning text, then branch. -/
def streamLoopGo (parse : JsonParse)
    (search fetch : Option String → ToolPayload) (model effort : String) :
    List StreamReply → StState → StreamRes
  | [], st => .outOfFuel st.events
  | rep :: rest, st =>
      match rep with
      | .error m => .finished (st.events ++ [.errorEvt m])
      | .ok items =>
          let so := processStream items
          match so.fullResponse with
          | none =>
              .finished (st.events ++ so.emitted
                ++ [.errorEvt "No response from Azure API"])
          | some fr =>
              match extractResponse parse fr with
              | .error m => .finished (st.events ++ so.emitted ++ [.errorEvt m])
              | .ok e =>
                  let reas2 := if so.currentReasoningText = "" then st.reas
                    else st.reas ++ [so.currentReasoningText]
                  match streamBranch search fetch model effort
                      ⟨st.input, st.events ++ so.emitted, st.acc, reas2⟩ e with
                  | .inl r => r
                  | .inr st2 =>
                      streamLoopGo parse search fetch model effort rest st2

/-- One whole streaming turn: the `start` event, then the loop. -/
def streamTurn (parse : JsonParse)
    (search fetch : Option String → ToolPayload) (model effort : String)
    (replies : List StreamReply) (input0 : List InputItem) : StreamRes :=
  streamLoopGo parse search fetch model effort replies
    ⟨input0, [.start], [], []⟩

/-- Return body of the netlify `chat.js` handler, together with the
transcript as it stood at the handler's end (so that the tool-result
appends of the single execution round are part of the model). -/
structure ChatJsOut where
  response : String
  reasoning : List String
  toolCalls : List ToolCall
  finalInput : List InputItem
deriving DecidableEq, Repr

/-- Embedding of the netlify `chat.js` handler: at most two gateway calls.
If the first response carries tool calls, its raw items and every
`web_search` / `web_fetch` result are appended and one follow-up call is
made; the second response's text is returned unconditionally, even when
that response itself still lists tool calls. -/
def chatJsTurn (parse : JsonParse)
    (search fetch : Option String → ToolPayload) (r1 r2 : AzureReply)
    (input0 : List InputItem) : Except String ChatJsOut :=
  match r1 with
  | .error m => .error m
  | .ok resp1 =>
      match extractResponse parse resp1 with
      | .error m => .error m
      | .ok e1 =>
          if e1.toolCalls.isEmpty then
            .ok ⟨e1.responseText, e1.reasoningSummary, e1.toolCalls, input0⟩
          else
            let input2 := input0 ++ e1.rawOutputItems.map InputItem.raw
              ++ execOutputs search fetch e1.toolCalls
            match r2 with
            | .error m => .error m
            | .ok resp2 =>
                match extractResponse parse resp2 with
                | .error m => .error m
                | .ok e2 =>
                    .ok ⟨e2.responseText,
                         e1.reasoningSummary ++ e2.reasoningSummary,
                         e1.toolCalls, input2⟩

/-- Concrete `JSON.parse` oracle for witnesses: only the empty-object
string parses (to empty arguments). -/
def parse0 : JsonParse := fun s =>
  if s = emptyObj then some ⟨none, none, none, none⟩ else none

/-- Concrete search executor oracle for witnesses. -/
def search0 : Option String → ToolPayload := fun _ => ⟨"sRes", 2⟩

/-- Concrete fetch executor oracle for witnesses. -/
def fetch0 : Option String → ToolPayload := fun _ => ⟨"fRes", 7⟩

/-- Empty parsed arguments (result of parsing the empty object). -/
def noArgs : ToolArgs := ⟨none, none, none, none⟩

/-- Provider response consisting of a single text message. -/
def respText (t : String) : ProviderResponse := ⟨[.message [.outputText t]]⟩

/-- Provider response consisting of a single `web_search` call. -/
def respSearchCall : ProviderResponse :=
  ⟨[.functionCall "c1" "web_search" none]⟩

/-- Provider response consisting of a single `clarify` call. -/
def respClarifyCall : ProviderResponse :=
  ⟨[.functionCall "cc" "clarify" none]⟩

/-- Provider response carrying a tool call whose name matches no executor. -/
def respUnknownCall : ProviderResponse :=
  ⟨[.functionCall "u1" "frobnicate" none]⟩

/-- Provider response carrying both a `web_search` call and message text. -/
def respMixed : ProviderResponse :=
  ⟨[.functionCall "c1" "web_search" none, .message [.outputText "A"]]⟩

/-- Tool-call names the loop body actually dispatches on. -/
def isHandledName (tc : ToolCall) : Bool :=
  tc.name = "web_search" || tc.name = "web_fetch"

/-- Well-formedness of a resumption token with respect to the stream
continue path: when the saved raw items contain a clarify `function_call`
with a non-empty identifier, that identifier is the saved one. Every token
the system itself emits satisfies this, since `clarifyCallId` is copied
from the first clarify call of the same response whose raw items are
saved. -/
def ctxAgrees (ctx : PendingContext) : Prop :=
  ∀ cid nm args,
    ctx.rawOutputItems.find? isClarifyFunctionCall
      = some (.functionCall cid nm args) →
    cid ≠ "" → cid = ctx.clarifyCallId

/-- Text of the first `output_text` part of a content list (empty string
when there is none). -/
def firstOutputTextIn (content : List ContentPart) : String :=
  match content.find? isOutputTextPart with
  | some (.outputText t) => t
  | _ => ""

def isDeltaEvent : SEvent → Bool
  | .reasoningDeltaEvt _ => true
  | .contentDeltaEvt _ => true
  | _ => false

/-- Events that terminate a streaming turn. -/
def isTerminalEvent : SEvent → Bool
  | .doneEvt _ _ => true
  | .clarifyEvt _ _ => true
  | .errorEvt _ => true
  | _ => false

/-- Concatenation of the `delta` fields of the `content_delta` events in a
client event list, in emission order. -/
def contentConcat : List SEvent → String
  | [] => ""
  | SEvent.contentDeltaEvt d :: rest => d ++ contentConcat rest
  | _ :: rest => contentConcat rest

/-- Tail of one streaming iteration, after the stream has been read and
extracted: branch, and keep looping on the `inr` case. -/
def streamResume (parse : JsonParse)
    (search fetch : Option String → ToolPayload) (model effort : String)
    (ss : List StreamReply) (st : StState) (e : Extracted) : StreamRes :=
  match streamBranch search fetch model effort st e with
  | .inl r => r
  | .inr st2 => streamLoopGo parse search fetch model effort ss st2

/-- Pointwise agreement between the non-streaming reply oracle and the
streaming oracle, expressing "identical inputs and identical provider and
tool behavior" plus the quietness condition the counterexample shows is
necessary: each streamed call ends with a final event carrying exactly the
corresponding full response, its content deltas concatenate to that
response's message text, and a response that still requests tools streams
no content text. -/
inductive StreamAgrees (parse : JsonParse) :
    List AzureReply → List StreamReply → Prop
  | nil : StreamAgrees parse [] []
  | cons (resp : ProviderResponse) (items : List SSEItem)
      (rs : List AzureReply) (ss : List StreamReply)
      (h1 : (processStream items).fullResponse = some resp)
      (h2 : (processStream items).currentContentText = textOf resp)
      (h3 : ∀ e, extractResponse parse resp = Except.ok e →
        e.toolCalls ≠ [] → (processStream items).currentContentText = "")
      (hrec : StreamAgrees parse rs ss) :
      StreamAgrees parse (Except.ok resp :: rs) (Except.ok items :: ss)

lemma execOutputs_countP (search fetch : Option String → ToolPayload)
    (tcs : List ToolCall) :
    (execOutputs search fetch tcs).countP isToolOutput
      = tcs.countP isHandledName := by
  induction tcs with
  | nil => simp [execOutputs]
  | cons tc rest ih =>
      rw [execOutputs, List.countP_append, ih, List.countP_cons]
      unfold toolOutputsFor isHandledName
      by_cases h1 : tc.name = "web_search"
      · simp [h1, isToolOutput, Nat.add_comm]
      · by_cases h2 : tc.name = "web_fetch" <;>
          simp [h1, h2, isToolOutput, Nat.add_comm]

lemma execOutputs_mem (search fetch : Option String → ToolPayload)
    (tcs : List ToolCall) (cid out : String)
    (h : InputItem.toolOutput cid out ∈ execOutputs search fetch tcs) :
    ∃ tc ∈ tcs, tc.id = cid ∧
      (tc.name = "web_search" ∨ tc.name = "web_fetch") := by
  induction tcs with
  | nil => simp [execOutputs] at h
  | cons tc rest ih =>
      rw [execOutputs, List.mem_append] at h
      rcases h with h | h
      · unfold toolOutputsFor at h
        by_cases h1 : tc.name = "web_search"
        · simp [h1] at h
          exact ⟨tc, List.mem_cons_self .., h.1.symm, Or.inl h1⟩
        · by_cases h2 : tc.name = "web_fetch"
          · simp [h1, h2] at h
            exact ⟨tc, List.mem_cons_self .., h.1.symm, Or.inr h2⟩
          · simp [h1, h2] at h
      · obtain ⟨tc2, htc2, hrest⟩ := ih h
        exact ⟨tc2, List.mem_cons_of_mem _ htc2, hrest⟩

/-- C1 (amended): in one RUNNING iteration that executes tools, the number
of ToolResult entries appended before the next model call equals the
number of tool calls named `web_search` or `web_fetch` (not the number of
all non-clarify tool calls), and every appended ToolResult is keyed to the
identifier of such a call. -/
theorem running_iteration_pairs_handled_calls
    (search fetch : Option String → ToolPayload) (raws : List OutputItem)
    (tcs : List ToolCall) :
    ((raws.map InputItem.raw ++ execOutputs search fetch tcs).countP
        isToolOutput = tcs.countP isHandledName)
    ∧ (∀ cid out,
        InputItem.toolOutput cid out
            ∈ raws.map InputItem.raw ++ execOutputs search fetch tcs →
        ∃ tc ∈ tcs, tc.id = cid ∧
          (tc.name = "web_search" ∨ tc.name = "web_fetch")) := by
  constructor
  · rw [List.countP_append, execOutputs_countP]
    have : (raws.map InputItem.raw).countP isToolOutput = 0 := by
      rw [List.countP_eq_zero]
      intro a ha
      obtain ⟨it, _, rfl⟩ := List.mem_map.mp ha
      simp [isToolOutput]
    omega
  · intro cid out h
    rw [List.mem_append] at h
    rcases h with h | h
    · obtain ⟨it, _, hit⟩ := List.mem_map.mp h
      cases hit
    · exact execOutputs_mem search fetch tcs cid out h

/-- Witness for the C1 theorem at a concrete iteration. -/
theorem running_iteration_pairs_handled_calls_witness :
    ((List.map InputItem.raw [OutputItem.functionCall "c1" "web_search" none]
        ++ execOutputs search0 fetch0 [⟨"c1", "web_search", noArgs⟩]).countP
        isToolOutput = 1)
    ∧ (∃ tc ∈ [(⟨"c1", "web_search", noArgs⟩ : ToolCall)], tc.id = "c1" ∧
        (tc.name = "web_search" ∨ tc.name = "web_fetch")) := by
  refine ⟨(running_iteration_pairs_handled_calls search0 fetch0
    [OutputItem.functionCall "c1" "web_search" none]
    [⟨"c1", "web_search", noArgs⟩]).1.trans (by decide),
    (running_iteration_pairs_handled_calls search0 fetch0
    [OutputItem.functionCall "c1" "web_search" none]
    [⟨"c1", "web_search", noArgs⟩]).2 "c1" "sRes" (by decide)⟩

/-- Counterexample to C1 as stated: a model-returned tool call whose name
matches no executor (here `frobnicate`) is non-clarify, yet the iteration
appends no ToolResult for it, so the appended count differs from the
non-clarify count. -/
theorem unknown_call_gets_no_tool_result :
    ¬ ((List.map InputItem.raw [OutputItem.functionCall "u1" "frobnicate" none]
        ++ execOutputs search0 fetch0 [⟨"u1", "frobnicate", noArgs⟩]).countP
          isToolOutput
      = List.countP (fun tc => !isClarifyCall tc)
          [(⟨"u1", "frobnicate", noArgs⟩ : ToolCall)]) := by
  decide

/-- C5: tool executors are total (they return an `ExecResult` value on
every input instead of raising), and each failure mode — missing API
credential, non-success HTTP status, thrown exception — produces an object
carrying an `error` field, consumable as a ToolResult payload. -/
theorem tool_executors_return_error_objects (A : Type) (url : String)
    (k : String) (outS : HttpOutcome A) (outF : HttpOutcome String)
    (d : A) (c : String) (s : Nat) (m : String) :
    (∀ key out, (∃ b, performWebSearch (A := A) key out = .payload b)
        ∨ ∃ r, performWebSearch (A := A) key out = .errorObj r)
    ∧ (∀ key out, (∃ b, performWebFetch url key out = .payload b)
        ∨ ∃ r, performWebFetch url key out = .errorObj r)
    ∧ performWebSearch (A := A) none outS
        = .errorObj "Search API not configured"
    ∧ performWebSearch (some k) (.httpError (A := A) s)
        = .errorObj ("Search failed: " ++ toString s)
    ∧ performWebSearch (some k) (.exn (A := A) m) = .errorObj m
    ∧ performWebSearch (some k) (.ok d) = .payload d
    ∧ performWebFetch url none outF = .errorObj "Web fetch API not configured"
    ∧ performWebFetch url (some k) (.httpError s)
        = .errorObj ("Fetch failed: " ++ toString s)
    ∧ performWebFetch url (some k) (.exn m) = .errorObj m
    ∧ performWebFetch url (some k) (.ok c) = .payload (url, c) := by
  refine ⟨?_, ?_, rfl, rfl, rfl, rfl, rfl, rfl, rfl, rfl⟩
  · intro key out
    cases key with
    | none => exact Or.inr ⟨_, rfl⟩
    | some _ =>
        cases out with
        | ok b => exact Or.inl ⟨b, rfl⟩
        | httpError s2 => exact Or.inr ⟨_, rfl⟩
        | exn m2 => exact Or.inr ⟨_, rfl⟩
  · intro key out
    cases key with
    | none => exact Or.inr ⟨_, rfl⟩
    | some _ =>
        cases out with
        | ok b => exact Or.inl ⟨_, rfl⟩
        | httpError s2 => exact Or.inr ⟨_, rfl⟩
        | exn m2 => exact Or.inr ⟨_, rfl⟩

/-- C4 (amended): resumption in `chat-continue.js` / the express continue
endpoint reconstructs exactly the saved transcript, then the saved raw
items in order, then one ToolResult keyed to the saved clarify identifier
with the serialized answers; `chat-stream.ts` keys that ToolResult to the
identifier of the first clarify call found among the saved raw items
(falling back to the saved one), which coincides with the saved identifier
exactly when the token is well-formed. -/
theorem resume_rebuilds_saved_transcript (ctx : PendingContext)
    (ans : String) :
    (continueInput ctx ans = ctx.input ++ ctx.rawOutputItems.map InputItem.raw
        ++ [InputItem.toolOutput ctx.clarifyCallId ans])
    ∧ ((continueInput ctx ans).countP isToolOutput
        = ctx.input.countP isToolOutput + 1)
    ∧ (ctxAgrees ctx → continueInputStream ctx ans = continueInput ctx ans) := by
  refine ⟨rfl, ?_, ?_⟩
  · unfold continueInput
    rw [List.countP_append, List.countP_append]
    have h0 : (ctx.rawOutputItems.map InputItem.raw).countP isToolOutput = 0 := by
      rw [List.countP_eq_zero]
      intro a ha
      obtain ⟨it, _, rfl⟩ := List.mem_map.mp ha
      simp [isToolOutput]
    simp [h0, isToolOutput]
  · intro hwf
    unfold continueInputStream continueInput actualCallId
    cases hfind : ctx.rawOutputItems.find? isClarifyFunctionCall with
    | none => rfl
    | some it =>
        have hp := List.find?_some hfind
        cases it with
        | functionCall cid nm args =>
            by_cases hc : cid = ""
            · simp [hc]
            · simp only []
              rw [if_neg hc, hwf cid nm args hfind hc]
        | reasoning s => simp [isClarifyFunctionCall] at hp
        | message c => simp [isClarifyFunctionCall] at hp
        | otherItem t => simp [isClarifyFunctionCall] at hp

/-- Witness for the C4 theorem on a concrete well-formed token. -/
theorem resume_rebuilds_saved_transcript_witness :
    ctxAgrees ⟨[InputItem.message "user" "hi"],
        [OutputItem.functionCall "cc" "clarify" none], "cc", "m", "low"⟩
    ∧ continueInputStream ⟨[InputItem.message "user" "hi"],
        [OutputItem.functionCall "cc" "clarify" none], "cc", "m", "low"⟩ "ans"
      = continueInput ⟨[InputItem.message "user" "hi"],
        [OutputItem.functionCall "cc" "clarify" none], "cc", "m", "low"⟩ "ans" := by
  have hwf : ctxAgrees ⟨[InputItem.message "user" "hi"],
      [OutputItem.functionCall "cc" "clarify" none], "cc", "m", "low"⟩ := by
    intro cid nm args hfind
    simp [List.find?, isClarifyFunctionCall] at hfind
    intro
    exact hfind.1.symm
  exact ⟨hwf, (resume_rebuilds_saved_transcript _ "ans").2.2 hwf⟩

/-- Counterexample to C4 as stated: for a PendingContext whose saved
clarify identifier differs from the clarify call recorded in the saved raw
items, the `chat-stream.ts` resumption keys the appended ToolResult to the
raw item's identifier `Y`, not to the saved identifier `X`. -/
theorem stream_resume_ignores_saved_call_id :
    continueInputStream
        ⟨[], [OutputItem.functionCall "Y" "clarify" none], "X", "m", "low"⟩
        "ans"
      ≠ ([] : List InputItem)
        ++ [OutputItem.functionCall "Y" "clarify" none].map InputItem.raw
        ++ [InputItem.toolOutput "X" "ans"] := by
  decide

lemma find?_append_of_none {A : Type} {p : A → Bool} {pre : List A}
    (h : ∀ x ∈ pre, p x = false) (l : List A) :
    (pre ++ l).find? p = l.find? p := by
  induction pre with
  | nil => rfl
  | cons a rest ih =>
      rw [List.cons_append, List.find?_cons_of_neg, ih]
      · intro x hx
        exact h x (List.mem_cons_of_mem _ hx)
      · simp [h a (List.mem_cons_self ..)]

/-- C10: the displayed reasoning summary comes from the first `reasoning`
output item only (and is empty when that item's summary is empty,
regardless of later reasoning items), the response text comes from the
first `output_text` part of the first `message` item only, and the raw
pass-through list keeps every reasoning and function_call item in order. -/
theorem extract_surfaces_first_items_only (parse : JsonParse) :
    (∀ pre s post, (∀ it ∈ pre, isReasoningItem it = false) →
      reasoningOf ⟨pre ++ OutputItem.reasoning s :: post⟩
        = if s.isEmpty then [] else s)
    ∧ (∀ pre c post, (∀ it ∈ pre, isMessageItem it = false) →
      textOf ⟨pre ++ OutputItem.message c :: post⟩ = firstOutputTextIn c)
    ∧ (∀ data e, extractResponse parse data = Except.ok e →
      e.reasoningSummary = reasoningOf data ∧ e.responseText = textOf data
        ∧ e.rawOutputItems = data.output.filter isRawItem) := by
  refine ⟨?_, ?_, ?_⟩
  · intro pre s post h
    unfold reasoningOf
    rw [show (ProviderResponse.mk (pre ++ OutputItem.reasoning s :: post)).output
          = pre ++ OutputItem.reasoning s :: post from rfl,
        find?_append_of_none h, List.find?_cons_of_pos _ (by rfl)]
  · intro pre c post h
    unfold textOf firstOutputTextIn
    rw [show (ProviderResponse.mk (pre ++ OutputItem.message c :: post)).output
          = pre ++ OutputItem.message c :: post from rfl,
        find?_append_of_none h, List.find?_cons_of_pos _ (by rfl)]
  · intro data e he
    unfold extractResponse at he
    cases htc : toolCallsOf parse data with
    | error m => rw [htc] at he; cases he
    | ok tcs =>
        rw [htc] at he
        cases he
        exact ⟨rfl, rfl, rfl⟩

/-- Witness for the C10 theorem: with a function call before and a second
reasoning item after, only the first reasoning item's summary is
displayed, and only the first message's first text part is the response. -/
theorem extract_surfaces_first_items_only_witness :
    reasoningOf ⟨[OutputItem.functionCall "c1" "web_search" none,
        OutputItem.reasoning ["r1"], OutputItem.reasoning ["r2"]]⟩ = ["r1"]
    ∧ textOf ⟨[OutputItem.message [ContentPart.otherPart "refusal",
        ContentPart.outputText "t1", ContentPart.outputText "t2"],
        OutputItem.message [ContentPart.outputText "t3"]]⟩ = "t1"
    ∧ (∀ e, extractResponse parse0 (respText "B") = Except.ok e →
        e.reasoningSummary = reasoningOf (respText "B")) := by
  refine ⟨?_, ?_, ?_⟩
  · rw [show ([OutputItem.functionCall "c1" "web_search" none,
        OutputItem.reasoning ["r1"], OutputItem.reasoning ["r2"]])
          = [OutputItem.functionCall "c1" "web_search" none]
            ++ OutputItem.reasoning ["r1"]
              :: [OutputItem.reasoning ["r2"]] from rfl,
      (extract_surfaces_first_items_only parse0).1
        [OutputItem.functionCall "c1" "web_search" none] ["r1"]
        [OutputItem.reasoning ["r2"]] (by decide)]
    decide
  · rw [show ([OutputItem.message [ContentPart.otherPart "refusal",
        ContentPart.outputText "t1", ContentPart.outputText "t2"],
        OutputItem.message [ContentPart.outputText "t3"]])
          = [] ++ OutputItem.message [ContentPart.otherPart "refusal",
              ContentPart.outputText "t1", ContentPart.outputText "t2"]
            :: [OutputItem.message [ContentPart.outputText "t3"]] from rfl,
      (extract_surfaces_first_items_only parse0).2.1 []
        [ContentPart.otherPart "refusal", ContentPart.outputText "t1",
         ContentPart.outputText "t2"]
        [OutputItem.message [ContentPart.outputText "t3"]] (by decide)]
    decide
  · intro e he
    exact ((extract_surfaces_first_items_only parse0).2.2 (respText "B") e he).1

lemma toolCallsGo_ok_iff (parse : JsonParse) (h : parse emptyObj ≠ none)
    (l : List OutputItem) :
    (∃ tcs, toolCallsGo parse l = .ok tcs) ↔
      ∀ cid nm s, OutputItem.functionCall cid nm (some s) ∈ l → s ≠ "" →
        parse s ≠ none := by
  induction l with
  | nil => simp [toolCallsGo]
  | cons it rest ih =>
      cases it with
      | functionCall cid nm args =>
          cases hp : parse (argSource args) with
          | none =>
              simp only [toolCallsGo, hp]
              constructor
              · rintro ⟨tcs, htcs⟩; cases htcs
              · intro hall
                exfalso
                cases args with
                | none => exact h hp
                | some s =>
                    by_cases hs : s = ""
                    · rw [argSource, if_pos hs] at hp
                      exact h hp
                    · rw [argSource, if_neg hs] at hp
                      exact hall cid nm s (List.mem_cons_self ..) hs hp
          | some a =>
              simp only [toolCallsGo, hp]
              constructor
              · rintro ⟨tcs, htcs⟩ cid2 nm2 s2 hmem hs2
                rcases List.mem_cons.mp hmem with heq | hmem2
                · cases heq
                  rw [argSource, if_neg hs2] at hp
                  rw [hp]
                  simp
                · cases hgo : toolCallsGo parse rest with
                  | error m => rw [hgo] at htcs; cases htcs
                  | ok tcs2 =>
                      exact (ih.mp ⟨tcs2, hgo⟩) cid2 nm2 s2 hmem2 hs2
              · intro hall
                have hrest : ∀ cid2 nm2 s2,
                    OutputItem.functionCall cid2 nm2 (some s2) ∈ rest →
                    s2 ≠ "" → parse s2 ≠ none := by
                  intro cid2 nm2 s2 hmem hs2
                  exact hall cid2 nm2 s2 (List.mem_cons_of_mem _ hmem) hs2
                obtain ⟨tcs, htcs⟩ := ih.mpr hrest
                exact ⟨⟨cid, nm, a⟩ :: tcs, by rw [htcs]⟩
      | reasoning s =>
          simp only [toolCallsGo]
          rw [ih]
          constructor
          · intro hall cid nm s2 hmem hs2
            rcases List.mem_cons.mp hmem with heq | hmem2
            · cases heq
            · exact hall cid nm s2 hmem2 hs2
          · intro hall cid nm s2 hmem hs2
            exact hall cid nm s2 (List.mem_cons_of_mem _ hmem) hs2
      | message c =>
          simp only [toolCallsGo]
          rw [ih]
          constructor
          · intro hall cid nm s2 hmem hs2
            rcases List.mem_cons.mp hmem with heq | hmem2
            · cases heq
            · exact hall cid nm s2 hmem2 hs2
          · intro hall cid nm s2 hmem hs2
            exact hall cid nm s2 (List.mem_cons_of_mem _ hmem) hs2
      | otherItem t =>
          simp only [toolCallsGo]
          rw [ih]
          constructor
          · intro hall cid nm s2 hmem hs2
            rcases List.mem_cons.mp hmem with heq | hmem2
            · cases heq
            · exact hall cid nm s2 hmem2 hs2
          · intro hall cid nm s2 hmem hs2
            exact hall cid nm s2 (List.mem_cons_of_mem _ hmem) hs2

/-- C9: extraction is not total — assuming the empty-object fallback
parses, `extractResponse` succeeds exactly when no `function_call` item
carries a non-empty arguments string that `JSON.parse` rejects; and an
extraction error is not converted into a tool-level error ToolResult but
fails the whole turn, as a fatal 500 in the non-streaming handlers and as
a terminal `error` event in the streaming loop. -/
theorem unparsable_arguments_fail_turn (parse : JsonParse)
    (h : parse emptyObj ≠ none) :
    (∀ data : ProviderResponse,
      (∃ e, extractResponse parse data = Except.ok e) ↔
        ∀ cid nm s, OutputItem.functionCall cid nm (some s) ∈ data.output →
          s ≠ "" → parse s ≠ none)
    ∧ (∀ (search fetch : Option String → ToolPayload) (model effort : String)
        (rest : List AzureReply) (input0 : List InputItem)
        (resp : ProviderResponse) (m : String),
        extractResponse parse resp = Except.error m →
        chatTurn parse search fetch model effort (Except.ok resp :: rest)
          input0 = ChatResult.fatal m [])
    ∧ (∀ (search fetch : Option String → ToolPayload) (model effort : String)
        (rest : List StreamReply) (st : StState) (items : List SSEItem)
        (fr : ProviderResponse) (m : String),
        (processStream items).fullResponse = some fr →
        extractResponse parse fr = Except.error m →
        streamLoopGo parse search fetch model effort
            (Except.ok items :: rest) st
          = StreamRes.finished
              (st.events ++ (processStream items).emitted
                ++ [SEvent.errorEvt m])) := by
  have hmem : ∀ (data : ProviderResponse) (cid nm : String) (s : String),
      OutputItem.functionCall cid nm (some s)
          ∈ data.output.filter isFunctionCallItem
        ↔ OutputItem.functionCall cid nm (some s) ∈ data.output := by
    intro data cid nm s
    rw [List.mem_filter]
    simp [isFunctionCallItem]
  refine ⟨?_, ?_, ?_⟩
  · intro data
    have hiff := toolCallsGo_ok_iff parse h
      (data.output.filter isFunctionCallItem)
    constructor
    · rintro ⟨e, he⟩ cid nm s hm hs
      unfold extractResponse at he
      cases htc : toolCallsOf parse data with
      | error m => rw [htc] at he; cases he
      | ok tcs =>
          unfold toolCallsOf at htc
          exact hiff.mp ⟨tcs, htc⟩ cid nm s ((hmem data cid nm s).mpr hm) hs
    · intro hall
      obtain ⟨tcs, htcs⟩ := hiff.mpr (by
        intro cid nm s hm hs
        exact hall cid nm s ((hmem data cid nm s).mp hm) hs)
      exact ⟨⟨textOf data, reasoningOf data, tcs, rawItemsOf data⟩, by
        unfold extractResponse toolCallsOf
        rw [htcs]⟩
  · intro search fetch model effort rest input0 resp m he
    simp [chatTurn, he]
  · intro search fetch model effort rest st items fr m hfull he
    simp [streamLoopGo, hfull, he]

/-- Witness for the C9 theorem: `parse0` accepts the empty object, a
response whose call carries the unparsable string `notjson` extracts to an
error, and both the non-streaming and streaming turns fail fatally on it,
while a response with no such call extracts successfully. -/
theorem unparsable_arguments_fail_turn_witness :
    (∃ e, extractResponse parse0 (respText "B") = Except.ok e)
    ∧ chatTurn parse0 search0 fetch0 "m" "low"
        [Except.ok ⟨[OutputItem.functionCall "b" "web_search"
          (some "notjson")]⟩] []
        = ChatResult.fatal "Unexpected token in JSON" []
    ∧ streamLoopGo parse0 search0 fetch0 "m" "low"
        [Except.ok [SSEItem.respDone ⟨[OutputItem.functionCall "b"
          "web_search" (some "notjson")]⟩]] ⟨[], [SEvent.start], [], []⟩
        = StreamRes.finished
            [SEvent.start, SEvent.errorEvt "Unexpected token in JSON"] := by
  have h0 : parse0 emptyObj ≠ none := by
    unfold parse0
    simp
  refine ⟨((unparsable_arguments_fail_turn parse0 h0).1 (respText "B")).mpr
    ?_, ?_, ?_⟩
  · intro cid nm s hm hs
    simp [respText] at hm
  · exact (unparsable_arguments_fail_turn parse0 h0).2.1 search0 fetch0
      "m" "low" [] []
      ⟨[OutputItem.functionCall "b" "web_search" (some "notjson")]⟩
      "Unexpected token in JSON" (by rfl)
  · exact ((unparsable_arguments_fail_turn parse0 h0).2.2 search0 fetch0
      "m" "low" [] ⟨[], [SEvent.start], [], []⟩
      [SSEItem.respDone ⟨[OutputItem.functionCall "b" "web_search"
        (some "notjson")]⟩]
      ⟨[OutputItem.functionCall "b" "web_search" (some "notjson")]⟩
      "Unexpected token in JSON" (by rfl) (by rfl)).trans (by decide)

lemma processStreamGo_emitted_ext (items : List SSEItem) :
    ∀ acc : StreamOut, ∃ ext,
      (processStreamGo items acc).emitted = acc.emitted ++ ext
        ∧ ∀ ev ∈ ext, isDeltaEvent ev = true := by
  induction items with
  | nil => intro acc; exact ⟨[], by simp [processStreamGo]⟩
  | cons it rest ih =>
      intro acc
      cases it with
      | reasoningDelta d =>
          obtain ⟨ext, hext, hall⟩ := ih ⟨acc.fullResponse,
            acc.currentReasoningText ++ deltaStr d, acc.currentContentText,
            acc.emitted ++ [.reasoningDeltaEvt (deltaStr d)]⟩
          refine ⟨SEvent.reasoningDeltaEvt (deltaStr d) :: ext, ?_, ?_⟩
          · rw [processStreamGo, hext]
            simp
          · intro ev hev
            rcases List.mem_cons.mp hev with rfl | hev2
            · rfl
            · exact hall ev hev2
      | contentDelta d =>
          obtain ⟨ext, hext, hall⟩ := ih ⟨acc.fullResponse,
            acc.currentReasoningText,
            acc.currentContentText ++ deltaStr d,
            acc.emitted ++ [.contentDeltaEvt (deltaStr d)]⟩
          refine ⟨SEvent.contentDeltaEvt (deltaStr d) :: ext, ?_, ?_⟩
          · rw [processStreamGo, hext]
            simp
          · intro ev hev
            rcases List.mem_cons.mp hev with rfl | hev2
            · rfl
            · exact hall ev hev2
      | respDone r =>
          obtain ⟨ext, hext, hall⟩ := ih ⟨some r, acc.currentReasoningText,
            acc.currentContentText, acc.emitted⟩
          exact ⟨ext, by rw [processStreamGo, hext], hall⟩
      | otherEvt t =>
          obtain ⟨ext, hext, hall⟩ := ih acc
          exact ⟨ext, by rw [processStreamGo, hext], hall⟩

lemma processStream_emitted_delta (items : List SSEItem) :
    ∀ ev ∈ (processStream items).emitted, isDeltaEvent ev = true := by
  obtain ⟨ext, hext, hall⟩ := processStreamGo_emitted_ext items ⟨none, "", "", []⟩
  intro ev hev
  rw [processStream] at hev
  rw [hext] at hev
  exact hall ev (by simpa using hev)

/-- C3: when the extracted tool calls include a clarify call — even
alongside non-clarify calls — the non-streaming loop returns the pending
result at once (for every remaining reply oracle, so no further model
call; with the invocation log unchanged, so no executor ran) carrying the
first clarify call's identifier; the streaming branch likewise emits
exactly one `clarify` event with that identifier and stops; and the events
emitted while reading that iteration's stream are delta events only — in
particular no `tool_call` or `tool_result` event. -/
theorem clarify_halts_iteration (parse : JsonParse)
    (search fetch : Option String → ToolPayload) (model effort : String) :
    (∀ (replies : List AzureReply) (st : LoopSt) (c : ToolCall),
      st.toolCalls.find? isClarifyCall = some c →
      chatLoop parse search fetch model effort replies st
        = ChatResult.pending ⟨st.input, st.rawItems, c.id, model, effort⟩
            c.arguments.questions st.reasoning st.log)
    ∧ (∀ (st : StState) (e : Extracted) (c : ToolCall),
      e.toolCalls.find? isClarifyCall = some c →
      streamBranch search fetch model effort st e
        = Sum.inl (StreamRes.finished (st.events
            ++ [SEvent.clarifyEvt c.arguments.questions
                ⟨st.input, e.rawOutputItems, c.id, model, effort⟩])))
    ∧ (∀ (items : List SSEItem) (ev : SEvent),
        ev ∈ (processStream items).emitted → isDeltaEvent ev = true) := by
  refine ⟨?_, ?_, processStream_emitted_delta⟩
  · intro replies st c hfind
    have hne : st.toolCalls.isEmpty = false := by
      cases h : st.toolCalls
      · rw [h] at hfind; simp [List.find?] at hfind
      · simp [h]
    have hb : chatBranch model effort st
        = some (ChatResult.pending ⟨st.input, st.rawItems, c.id, model,
            effort⟩ c.arguments.questions st.reasoning st.log) := by
      rw [chatBranch]
      simp [hne, hfind]
    cases replies with
    | nil => simp only [chatLoop, hb]
    | cons rep rest => simp only [chatLoop, hb]
  · intro st e c hfind
    have hne : e.toolCalls.isEmpty = false := by
      cases h : e.toolCalls
      · rw [h] at hfind; simp [List.find?] at hfind
      · simp [h]
    rw [streamBranch]
    simp [hne, hfind]

/-- Witness for the C3 theorem: a clarify call arriving second, after a
`web_search` call, still pauses the loop immediately with the clarify
call's identifier, regardless of any remaining reply oracle. -/
theorem clarify_halts_iteration_witness :
    chatLoop parse0 search0 fetch0 "m" "low" [Except.ok (respText "B")]
        ⟨[InputItem.message "user" "hi"], "", [],
         [⟨"s1", "web_search", noArgs⟩, ⟨"cc", "clarify", noArgs⟩],
         [OutputItem.functionCall "cc" "clarify" none], [], []⟩
      = ChatResult.pending
          ⟨[InputItem.message "user" "hi"],
           [OutputItem.functionCall "cc" "clarify" none], "cc", "m", "low"⟩
          none [] [] := by
  exact (clarify_halts_iteration parse0 search0 fetch0 "m" "low").1
    [Except.ok (respText "B")]
    ⟨[InputItem.message "user" "hi"], "", [],
     [⟨"s1", "web_search", noArgs⟩, ⟨"cc", "clarify", noArgs⟩],
     [OutputItem.functionCall "cc" "clarify" none], [], []⟩
    ⟨"cc", "clarify", noArgs⟩ (by decide)

lemma chatBranch_complete {model effort : String} {st : LoopSt}
    {resp : String} {reas : List String} {acc : List ToolCall}
    {log : List ToolInvocation}
    (h : chatBranch model effort st
      = some (ChatResult.complete resp reas acc log)) :
    st.toolCalls = [] ∧ resp = st.responseText := by
  rw [chatBranch] at h
  by_cases he : st.toolCalls.isEmpty
  · rw [if_pos he] at h
    injection h with h2
    cases h2
    exact ⟨List.isEmpty_iff.mp he, rfl⟩
  · rw [if_neg he] at h
    cases hf : st.toolCalls.find? isClarifyCall with
    | some c => rw [hf] at h; simp at h
    | none => rw [hf] at h; cases h

lemma chatLoop_step_ok (parse : JsonParse)
    (search fetch : Option String → ToolPayload) (model effort : String)
    (rep : ProviderResponse) (rest : List AzureReply) (st : LoopSt)
    (e : Extracted) (hb : chatBranch model effort st = none)
    (hex : extractResponse parse rep = Except.ok e) :
    chatLoop parse search fetch model effort (Except.ok rep :: rest) st
      = chatLoop parse search fetch model effort rest
          ⟨st.input ++ st.rawItems.map InputItem.raw
             ++ execOutputs search fetch st.toolCalls,
           e.responseText, st.reasoning ++ e.reasoningSummary, e.toolCalls,
           e.rawOutputItems, st.allToolCalls ++ e.toolCalls,
           st.log ++ execLog search fetch st.toolCalls⟩ := by
  simp only [chatLoop, hb, hex]

lemma chatLoop_complete_src (parse : JsonParse)
    (search fetch : Option String → ToolPayload) (model effort : String) :
    ∀ (replies : List AzureReply) (st : LoopSt) (resp : String)
      (reas : List String) (acc : List ToolCall) (log : List ToolInvocation),
      chatLoop parse search fetch model effort replies st
        = ChatResult.complete resp reas acc log →
      (st.toolCalls = [] ∧ resp = st.responseText)
      ∨ ∃ r e, Except.ok r ∈ replies ∧ extractResponse parse r = Except.ok e
          ∧ e.toolCalls = [] ∧ resp = e.responseText := by
  intro replies
  induction replies with
  | nil =>
      intro st resp reas acc log h
      cases hb : chatBranch model effort st with
      | some r =>
          rw [show chatLoop parse search fetch model effort [] st = r by
            simp only [chatLoop, hb]] at h
          subst h
          exact Or.inl (chatBranch_complete hb)
      | none =>
          rw [show chatLoop parse search fetch model effort [] st
            = ChatResult.outOfFuel by simp only [chatLoop, hb]] at h
          cases h
  | cons rep rest ih =>
      intro st resp reas acc log h
      cases hb : chatBranch model effort st with
      | some r =>
          rw [show chatLoop parse search fetch model effort (rep :: rest) st
            = r by simp only [chatLoop, hb]] at h
          subst h
          exact Or.inl (chatBranch_complete hb)
      | none =>
          cases rep with
          | error m =>
              rw [show chatLoop parse search fetch model effort
                  (Except.error m :: rest) st
                = ChatResult.fatal m
                    (st.log ++ execLog search fetch st.toolCalls) by
                simp only [chatLoop, hb]] at h
              cases h
          | ok resp2 =>
              cases hex : extractResponse parse resp2 with
              | error m =>
                  rw [show chatLoop parse search fetch model effort
                      (Except.ok resp2 :: rest) st
                    = ChatResult.fatal m
                        (st.log ++ execLog search fetch st.toolCalls) by
                    simp only [chatLoop, hb, hex]] at h
                  cases h
              | ok e =>
                  rw [chatLoop_step_ok parse search fetch model effort resp2
                    rest st e hb hex] at h
                  rcases ih _ resp reas acc log h with
                    ⟨htc, hresp⟩ | ⟨r, e2, hmem, hex2, htc2, hresp2⟩
                  · exact Or.inr ⟨resp2, e, List.mem_cons_self .., hex, htc,
                      hresp⟩
                  · exact Or.inr ⟨r, e2, List.mem_cons_of_mem _ hmem, hex2,
                      htc2, hresp2⟩

/-- C2 (amended, loop part): whenever a non-streaming loop turn (express
`/api/chat`, express continue, `chat-continue.js`) reports `complete`,
the returned text is the extracted text of a consumed model response
whose tool-call list is empty. The netlify `chat.js` variant is the
exception its counterexample records: it stops after one round of tool
execution and returns the second response's text unconditionally. -/
theorem complete_text_from_final_response (parse : JsonParse)
    (search fetch : Option String → ToolPayload) (model effort : String)
    (replies : List AzureReply) (input0 : List InputItem) (resp : String)
    (reas : List String) (acc : List ToolCall) (log : List ToolInvocation)
    (h : chatTurn parse search fetch model effort replies input0
      = ChatResult.complete resp reas acc log) :
    ∃ r e, Except.ok r ∈ replies ∧ extractResponse parse r = Except.ok e
      ∧ e.toolCalls = [] ∧ resp = e.responseText := by
  cases replies with
  | nil => simp [chatTurn] at h
  | cons rep rest =>
      cases rep with
      | error m => simp [chatTurn] at h
      | ok resp2 =>
          cases hex : extractResponse parse resp2 with
          | error m2 =>
              rw [show chatTurn parse search fetch model effort
                  (Except.ok resp2 :: rest) input0
                = ChatResult.fatal m2 [] by simp [chatTurn, hex]] at h
              cases h
          | ok e =>
              rw [show chatTurn parse search fetch model effort
                  (Except.ok resp2 :: rest) input0
                = chatLoop parse search fetch model effort rest
                    ⟨input0, e.responseText, e.reasoningSummary, e.toolCalls,
                     e.rawOutputItems, e.toolCalls, []⟩ by
                simp [chatTurn, hex]] at h
              rcases chatLoop_complete_src parse search fetch model effort
                  rest _ resp reas acc log h with
                ⟨htc, hresp⟩ | ⟨r, e2, hmem, hex2, htc2, hresp2⟩
              · exact ⟨resp2, e, List.mem_cons_self .., hex, htc, hresp⟩
              · exact ⟨r, e2, List.mem_cons_of_mem _ hmem, hex2, htc2, hresp2⟩

/-- Witness for the C2 theorem on a concrete two-call run. -/
theorem complete_text_from_final_response_witness :
    ∃ (r : ProviderResponse) (e : Extracted),
      Except.ok r ∈ ([Except.ok respSearchCall, Except.ok (respText "B")]
        : List AzureReply)
      ∧ extractResponse parse0 r = Except.ok e ∧ e.toolCalls = []
      ∧ "B" = e.responseText := by
  exact complete_text_from_final_response parse0 search0 fetch0 "m" "low"
    [Except.ok respSearchCall, Except.ok (respText "B")] [] "B" []
    [⟨"c1", "web_search", noArgs⟩] [ToolInvocation.searchInv none]
    (by decide)

/-- Counterexample to C2 as stated: the netlify `chat.js` handler makes
at most two model calls; here the second response still lists a
`web_search` tool call, yet its text `A` is what the caller receives —
the returned text does not come from a response with an empty tool-call
list. -/
theorem chatjs_returns_text_despite_toolcalls :
    chatJsTurn parse0 search0 fetch0 (Except.ok respSearchCall)
        (Except.ok respMixed) []
      = Except.ok ⟨"A", [], [⟨"c1", "web_search", noArgs⟩],
          [InputItem.raw (OutputItem.functionCall "c1" "web_search" none),
           InputItem.toolOutput "c1" "sRes"]⟩
    ∧ ∀ e, extractResponse parse0 respMixed = Except.ok e →
        e.toolCalls ≠ [] := by
  constructor
  · rfl
  · intro e he
    rw [show extractResponse parse0 respMixed
        = Except.ok ⟨"A", [],
            [⟨"c1", "web_search", noArgs⟩],
            [OutputItem.functionCall "c1" "web_search" none]⟩ from rfl] at he
    cases he
    decide

lemma countP_terminal_emitted (items : List SSEItem) :
    (processStream items).emitted.countP isTerminalEvent = 0 := by
  rw [List.countP_eq_zero]
  intro ev hev
  have hd := processStream_emitted_delta items ev hev
  cases ev <;> simp_all [isDeltaEvent, isTerminalEvent]

lemma streamExecEvents_no_terminal (search fetch : Option String → ToolPayload)
    (tcs : List ToolCall) :
    (streamExecEvents search fetch tcs).countP isTerminalEvent = 0 := by
  induction tcs with
  | nil => simp [streamExecEvents]
  | cons tc rest ih =>
      rw [streamExecEvents, List.countP_append, ih]
      unfold streamToolStep
      by_cases h1 : tc.name = "web_search"
      · simp [h1, isTerminalEvent]
      · by_cases h2 : tc.name = "web_fetch" <;>
          simp [h1, h2, isTerminalEvent]

lemma streamBranch_inl (search fetch : Option String → ToolPayload)
    (model effort : String) (st : StState) (e : Extracted) (r : StreamRes)
    (h : streamBranch search fetch model effort st e = Sum.inl r) :
    ∃ t, r = StreamRes.finished (st.events ++ [t])
      ∧ isTerminalEvent t = true := by
  rw [streamBranch] at h
  by_cases he : e.toolCalls.isEmpty
  · rw [if_pos he] at h
    injection h with h2
    exact ⟨SEvent.doneEvt st.reas (st.acc.map fmtToolCall), h2.symm, rfl⟩
  · rw [if_neg he] at h
    cases hf : e.toolCalls.find? isClarifyCall with
    | some c =>
        rw [hf] at h
        injection h with h2
        exact ⟨SEvent.clarifyEvt c.arguments.questions
          ⟨st.input, e.rawOutputItems, c.id, model, effort⟩, h2.symm, rfl⟩
    | none => rw [hf] at h; cases h

lemma streamBranch_inr (search fetch : Option String → ToolPayload)
    (model effort : String) (st : StState) (e : Extracted) (st2 : StState)
    (h : streamBranch search fetch model effort st e = Sum.inr st2) :
    st2.events = st.events ++ streamExecEvents search fetch e.toolCalls := by
  rw [streamBranch] at h
  by_cases he : e.toolCalls.isEmpty
  · rw [if_pos he] at h; cases h
  · rw [if_neg he] at h
    cases hf : e.toolCalls.find? isClarifyCall with
    | some c => rw [hf] at h; cases h
    | none =>
        rw [hf] at h
        injection h with h2
        rw [← h2]

lemma streamLoopGo_single_terminal (parse : JsonParse)
    (search fetch : Option String → ToolPayload) (model effort : String) :
    ∀ (replies : List StreamReply) (st : StState) (evs : List SEvent),
      st.events.countP isTerminalEvent = 0 →
      streamLoopGo parse search fetch model effort replies st
        = StreamRes.finished evs →
      ∃ pre t, evs = pre ++ [t] ∧ isTerminalEvent t = true
        ∧ pre.countP isTerminalEvent = 0 := by
  intro replies
  induction replies with
  | nil =>
      intro st evs h1 h2
      rw [show streamLoopGo parse search fetch model effort [] st
        = StreamRes.outOfFuel st.events by simp only [streamLoopGo]] at h2
      cases h2
  | cons rep rest ih =>
      intro st evs h1 h2
      cases rep with
      | error m =>
          rw [show streamLoopGo parse search fetch model effort
              (Except.error m :: rest) st
            = StreamRes.finished (st.events ++ [SEvent.errorEvt m]) by
            simp only [streamLoopGo]] at h2
          injection h2 with h3
          exact ⟨st.events, .errorEvt m, h3.symm, rfl, h1⟩
      | ok items =>
          cases hfull : (processStream items).fullResponse with
          | none =>
              rw [show streamLoopGo parse search fetch model effort
                  (Except.ok items :: rest) st
                = StreamRes.finished (st.events
                    ++ (processStream items).emitted
                    ++ [SEvent.errorEvt "No response from Azure API"]) by
                simp only [streamLoopGo, hfull]] at h2
              injection h2 with h3
              refine ⟨st.events ++ (processStream items).emitted,
                SEvent.errorEvt "No response from Azure API",
                by rw [← h3, List.append_assoc], rfl, ?_⟩
              rw [List.countP_append, h1, countP_terminal_emitted]
          | some fr =>
              cases hex : extractResponse parse fr with
              | error m =>
                  rw [show streamLoopGo parse search fetch model effort
                      (Except.ok items :: rest) st
                    = StreamRes.finished (st.events
                        ++ (processStream items).emitted
                        ++ [SEvent.errorEvt m]) by
                    simp only [streamLoopGo, hfull, hex]] at h2
                  injection h2 with h3
                  refine ⟨st.events ++ (processStream items).emitted,
                    SEvent.errorEvt m,
                    by rw [← h3, List.append_assoc], rfl, ?_⟩
                  rw [List.countP_append, h1, countP_terminal_emitted]
              | ok e =>
                  rw [show streamLoopGo parse search fetch model effort
                      (Except.ok items :: rest) st
                    = (match streamBranch search fetch model effort
                        ⟨st.input, st.events ++ (processStream items).emitted,
                         st.acc,
                         if (processStream items).currentReasoningText = ""
                           then st.reas
                           else st.reas
                             ++ [(processStream items).currentReasoningText]⟩
                        e with
                      | .inl r => r
                      | .inr st2 =>
                          streamLoopGo parse search fetch model effort rest
                            st2) by
                    simp only [streamLoopGo, hfull, hex]] at h2
                  have hcount : (st.events
                      ++ (processStream items).emitted).countP
                        isTerminalEvent = 0 := by
                    rw [List.countP_append, h1, countP_terminal_emitted]
                  split at h2
                  · rename_i r hsb
                    obtain ⟨t, rfl, hterm⟩ := streamBranch_inl search fetch
                      model effort _ e r hsb
                    injection h2 with h3
                    exact ⟨_, t, h3.symm, hterm, hcount⟩
                  · rename_i st2 hsb
                    have hev2 := streamBranch_inr search fetch model effort
                      _ e st2 hsb
                    refine ih st2 evs ?_ h2
                    rw [hev2, List.countP_append, hcount,
                      streamExecEvents_no_terminal]

/-- C6: every streaming turn that runs to completion pushes exactly one
terminal event — `done`, `clarify` or `error` — and pushes it last: the
event list splits as a terminal-free prefix followed by one terminal
event, after which the stream is closed. -/
theorem stream_turn_single_terminal (parse : JsonParse)
    (search fetch : Option String → ToolPayload) (model effort : String)
    (replies : List StreamReply) (input0 : List InputItem)
    (evs : List SEvent)
    (h : streamTurn parse search fetch model effort replies input0
      = StreamRes.finished evs) :
    ∃ pre t, evs = pre ++ [t] ∧ isTerminalEvent t = true
      ∧ pre.countP isTerminalEvent = 0 := by
  exact streamLoopGo_single_terminal parse search fetch model effort replies
    ⟨input0, [SEvent.start], [], []⟩ evs (by rfl) h

/-- Witness for the C6 theorem on a concrete one-iteration turn. -/
theorem stream_turn_single_terminal_witness :
    ∃ pre t, [SEvent.start, SEvent.contentDeltaEvt "B",
        SEvent.doneEvt [] []] = pre ++ [t]
      ∧ isTerminalEvent t = true ∧ pre.countP isTerminalEvent = 0 := by
  exact stream_turn_single_terminal parse0 search0 fetch0 "m" "low"
    [Except.ok [SSEItem.contentDelta (some "B"),
      SSEItem.respDone (respText "B")]] []
    [SEvent.start, SEvent.contentDeltaEvt "B", SEvent.doneEvt [] []]
    (by decide)

lemma processStreamGo_full_none (items : List SSEItem) :
    ∀ acc : StreamOut,
      ((processStreamGo items acc).fullResponse = none ↔
        acc.fullResponse = none
          ∧ ∀ it ∈ items, ∀ r, it ≠ SSEItem.respDone r) := by
  induction items with
  | nil => intro acc; simp [processStreamGo]
  | cons it rest ih =>
      intro acc
      cases it with
      | reasoningDelta d =>
          rw [processStreamGo, ih]
          constructor
          · rintro ⟨h1, h2⟩
            refine ⟨h1, ?_⟩
            intro it2 hit2 r
            rcases List.mem_cons.mp hit2 with rfl | hin
            · intro hx; cases hx
            · exact h2 it2 hin r
          · rintro ⟨h1, h2⟩
            exact ⟨h1, fun it2 hin r =>
              h2 it2 (List.mem_cons_of_mem _ hin) r⟩
      | contentDelta d =>
          rw [processStreamGo, ih]
          constructor
          · rintro ⟨h1, h2⟩
            refine ⟨h1, ?_⟩
            intro it2 hit2 r
            rcases List.mem_cons.mp hit2 with rfl | hin
            · intro hx; cases hx
            · exact h2 it2 hin r
          · rintro ⟨h1, h2⟩
            exact ⟨h1, fun it2 hin r =>
              h2 it2 (List.mem_cons_of_mem _ hin) r⟩
      | respDone r0 =>
          rw [processStreamGo, ih]
          constructor
          · rintro ⟨h1, h2⟩
            cases h1
          · rintro ⟨h1, h2⟩
            exact absurd rfl (h2 (SSEItem.respDone r0)
              (List.mem_cons_self ..) r0)
      | otherEvt t =>
          rw [processStreamGo, ih]
          constructor
          · rintro ⟨h1, h2⟩
            refine ⟨h1, ?_⟩
            intro it2 hit2 r
            rcases List.mem_cons.mp hit2 with rfl | hin
            · intro hx; cases hx
            · exact h2 it2 hin r
          · rintro ⟨h1, h2⟩
            exact ⟨h1, fun it2 hin r =>
              h2 it2 (List.mem_cons_of_mem _ hin) r⟩

/-- C8: the accumulated `fullResponse` is absent exactly when the provider
stream produced no final full-response event, and in that case the
iteration fails the whole turn: the loop pushes a terminal `error` event —
never `done` or `clarify` — and closes the stream. -/
theorem missing_final_event_fails_stream (parse : JsonParse)
    (search fetch : Option String → ToolPayload) (model effort : String) :
    (∀ items : List SSEItem,
      ((processStream items).fullResponse = none ↔
        ∀ it ∈ items, ∀ r, it ≠ SSEItem.respDone r))
    ∧ (∀ (rest : List StreamReply) (st : StState) (items : List SSEItem),
        (processStream items).fullResponse = none →
        streamLoopGo parse search fetch model effort
            (Except.ok items :: rest) st
          = StreamRes.finished (st.events ++ (processStream items).emitted
              ++ [SEvent.errorEvt "No response from Azure API"])) := by
  constructor
  · intro items
    rw [processStream, processStreamGo_full_none]
    simp
  · intro rest st items hfull
    simp only [streamLoopGo, hfull]

/-- Witness for the C8 theorem: a stream that only carries a content delta
and then ends produces the fatal `error` event. -/
theorem missing_final_event_fails_stream_witness :
    (processStream [SSEItem.contentDelta (some "x")]).fullResponse = none
    ∧ streamLoopGo parse0 search0 fetch0 "m" "low"
        [Except.ok [SSEItem.contentDelta (some "x")]]
        ⟨[], [SEvent.start], [], []⟩
      = StreamRes.finished [SEvent.start, SEvent.contentDeltaEvt "x",
          SEvent.errorEvt "No response from Azure API"] := by
  have h1 : (processStream [SSEItem.contentDelta (some "x")]).fullResponse
      = none := by
    exact ((missing_final_event_fails_stream parse0 search0 fetch0 "m"
      "low").1 [SSEItem.contentDelta (some "x")]).mpr (by
        intro it hit r
        rcases List.mem_cons.mp hit with rfl | hin
        · intro hx; cases hx
        · cases hin)
  refine ⟨h1, ?_⟩
  exact ((missing_final_event_fails_stream parse0 search0 fetch0 "m"
    "low").2 [] ⟨[], [SEvent.start], [], []⟩
    [SSEItem.contentDelta (some "x")] h1).trans (by decide)

lemma extractResponse_ok_fields (parse : JsonParse)
    (data : ProviderResponse) (e : Extracted)
    (h : extractResponse parse data = Except.ok e) :
    e.responseText = textOf data := by
  unfold extractResponse at h
  cases htc : toolCallsOf parse data with
  | error m => rw [htc] at h; cases h
  | ok tcs => rw [htc] at h; cases h; rfl

lemma contentConcat_append (a b : List SEvent) :
    contentConcat (a ++ b) = contentConcat a ++ contentConcat b := by
  induction a with
  | nil => rw [List.nil_append, contentConcat, String.empty_append]
  | cons ev rest ih =>
      cases ev with
      | contentDeltaEvt d =>
          rw [List.cons_append, contentConcat, ih, contentConcat,
            String.append_assoc]
      | start => rw [List.cons_append]; exact ih
      | reasoningDeltaEvt d => rw [List.cons_append]; exact ih
      | toolCallEvt n q => rw [List.cons_append]; exact ih
      | toolResultEvt n c => rw [List.cons_append]; exact ih
      | clarifyEvt q c => rw [List.cons_append]; exact ih
      | doneEvt r t => rw [List.cons_append]; exact ih
      | errorEvt m => rw [List.cons_append]; exact ih

lemma processStreamGo_content_ext (items : List SSEItem) :
    ∀ acc : StreamOut, ∃ ext,
      (processStreamGo items acc).emitted = acc.emitted ++ ext
        ∧ (processStreamGo items acc).currentContentText
            = acc.currentContentText ++ contentConcat ext := by
  induction items with
  | nil =>
      intro acc
      exact ⟨[], by simp [processStreamGo, contentConcat,
        String.append_empty]⟩
  | cons it rest ih =>
      intro acc
      cases it with
      | reasoningDelta d =>
          obtain ⟨ext, hext, hcon⟩ := ih ⟨acc.fullResponse,
            acc.currentReasoningText ++ deltaStr d, acc.currentContentText,
            acc.emitted ++ [.reasoningDeltaEvt (deltaStr d)]⟩
          refine ⟨SEvent.reasoningDeltaEvt (deltaStr d) :: ext, ?_, ?_⟩
          · rw [processStreamGo, hext]
            simp
          · rw [processStreamGo, hcon]
            rfl
      | contentDelta d =>
          obtain ⟨ext, hext, hcon⟩ := ih ⟨acc.fullResponse,
            acc.currentReasoningText,
            acc.currentContentText ++ deltaStr d,
            acc.emitted ++ [.contentDeltaEvt (deltaStr d)]⟩
          refine ⟨SEvent.contentDeltaEvt (deltaStr d) :: ext, ?_, ?_⟩
          · rw [processStreamGo, hext]
            simp
          · rw [processStreamGo, hcon, contentConcat, String.append_assoc]
      | respDone r =>
          obtain ⟨ext, hext, hcon⟩ := ih ⟨some r, acc.currentReasoningText,
            acc.currentContentText, acc.emitted⟩
          exact ⟨ext, by rw [processStreamGo, hext],
            by rw [processStreamGo, hcon]⟩
      | otherEvt t =>
          obtain ⟨ext, hext, hcon⟩ := ih acc
          exact ⟨ext, by rw [processStreamGo, hext],
            by rw [processStreamGo, hcon]⟩

lemma processStream_contentConcat (items : List SSEItem) :
    contentConcat (processStream items).emitted
      = (processStream items).currentContentText := by
  obtain ⟨ext, hext, hcon⟩ :=
    processStreamGo_content_ext items ⟨none, "", "", []⟩
  unfold processStream
  rw [hext, hcon]
  simp only [List.nil_append, String.empty_append]

lemma streamExecEvents_no_content (search fetch : Option String → ToolPayload)
    (tcs : List ToolCall) :
    contentConcat (streamExecEvents search fetch tcs) = "" := by
  induction tcs with
  | nil => rfl
  | cons tc rest ih =>
      rw [streamExecEvents, contentConcat_append, ih, String.append_empty]
      unfold streamToolStep
      by_cases h1 : tc.name = "web_search"
      · simp [h1, contentConcat]
      · by_cases h2 : tc.name = "web_fetch" <;>
          simp [h1, h2, contentConcat]

lemma chatBranch_empty {model effort : String} {st : LoopSt}
    (hemp : st.toolCalls.isEmpty = true) :
    chatBranch model effort st
      = some (ChatResult.complete st.responseText st.reasoning
          st.allToolCalls st.log) := by
  rw [chatBranch, if_pos hemp]

lemma chatBranch_clarify {model effort : String} {st : LoopSt} {c : ToolCall}
    (hf : st.toolCalls.find? isClarifyCall = some c) :
    chatBranch model effort st
      = some (ChatResult.pending ⟨st.input, st.rawItems, c.id, model, effort⟩
          c.arguments.questions st.reasoning st.log) := by
  have hemp : st.toolCalls.isEmpty = false := by
    cases h : st.toolCalls
    · rw [h] at hf; simp [List.find?] at hf
    · simp [h]
  rw [chatBranch, if_neg (by rw [hemp]; exact Bool.false_ne_true), hf]

lemma chatBranch_none_of {model effort : String} {st : LoopSt}
    (hemp : st.toolCalls.isEmpty = false)
    (hf : st.toolCalls.find? isClarifyCall = none) :
    chatBranch model effort st = none := by
  rw [chatBranch, if_neg (by rw [hemp]; exact Bool.false_ne_true), hf]

lemma chatLoop_branch_some (parse : JsonParse)
    (search fetch : Option String → ToolPayload) (model effort : String)
    {st : LoopSt} {r : ChatResult}
    (hb : chatBranch model effort st = some r) :
    ∀ replies : List AzureReply,
      chatLoop parse search fetch model effort replies st = r := by
  intro replies
  cases replies with
  | nil => simp only [chatLoop, hb]
  | cons rep rest => simp only [chatLoop, hb]

lemma chatLoop_err_step (parse : JsonParse)
    (search fetch : Option String → ToolPayload) (model effort : String)
    {st : LoopSt} (m : String) (rest : List AzureReply)
    (hb : chatBranch model effort st = none) :
    chatLoop parse search fetch model effort (Except.error m :: rest) st
      = ChatResult.fatal m (st.log ++ execLog search fetch st.toolCalls) := by
  simp only [chatLoop, hb]

lemma chatLoop_exerr_step (parse : JsonParse)
    (search fetch : Option String → ToolPayload) (model effort : String)
    {st : LoopSt} (resp2 : ProviderResponse) (m : String)
    (rest : List AzureReply)
    (hb : chatBranch model effort st = none)
    (hex : extractResponse parse resp2 = Except.error m) :
    chatLoop parse search fetch model effort (Except.ok resp2 :: rest) st
      = ChatResult.fatal m (st.log ++ execLog search fetch st.toolCalls) := by
  simp only [chatLoop, hb, hex]

lemma streamLoopGo_ok_step (parse : JsonParse)
    (search fetch : Option String → ToolPayload) (model effort : String)
    (items : List SSEItem) (rest : List StreamReply) (st : StState)
    (fr : ProviderResponse) (e : Extracted)
    (h1 : (processStream items).fullResponse = some fr)
    (hex : extractResponse parse fr = Except.ok e) :
    streamLoopGo parse search fetch model effort (Except.ok items :: rest) st
      = streamResume parse search fetch model effort rest
          ⟨st.input, st.events ++ (processStream items).emitted, st.acc,
           if (processStream items).currentReasoningText = "" then st.reas
             else st.reas ++ [(processStream items).currentReasoningText]⟩
          e := by
  simp only [streamLoopGo, streamResume, h1, hex]

lemma lockstep_done_case (parse : JsonParse)
    (search fetch : Option String → ToolPayload) (model effort : String)
    (rs : List AzureReply) (ss : List StreamReply) (e : Extracted)
    (inC : List InputItem) (reasC : List String) (accC : List ToolCall)
    (logC : List ToolInvocation) (inS : List InputItem) (evs : List SEvent)
    (accS : List ToolCall) (reasS : List String) (resp : String)
    (reas2 : List String) (acc2 : List ToolCall) (log2 : List ToolInvocation)
    (hemp : e.toolCalls.isEmpty = true)
    (hconcat : contentConcat evs = e.responseText)
    (hloop : chatLoop parse search fetch model effort rs
        ⟨inC, e.responseText, reasC, e.toolCalls, e.rawOutputItems, accC,
         logC⟩
      = ChatResult.complete resp reas2 acc2 log2) :
    ∃ evs2,
      streamResume parse search fetch model effort ss
          ⟨inS, evs, accS, reasS⟩ e = StreamRes.finished evs2
      ∧ contentConcat evs2 = resp := by
  rw [chatLoop_branch_some parse search fetch model effort
    (chatBranch_empty hemp) rs] at hloop
  injection hloop with hr hreas hacc hlog
  have hsb : streamBranch search fetch model effort ⟨inS, evs, accS, reasS⟩ e
      = Sum.inl (StreamRes.finished
          (evs ++ [SEvent.doneEvt reasS (accS.map fmtToolCall)])) := by
    rw [streamBranch, if_pos hemp]
  refine ⟨evs ++ [SEvent.doneEvt reasS (accS.map fmtToolCall)], ?_, ?_⟩
  · simp only [streamResume, hsb]
  · rw [contentConcat_append, hconcat,
      show contentConcat [SEvent.doneEvt reasS (accS.map fmtToolCall)]
        = "" from rfl, String.append_empty]
    exact hr

lemma chat_stream_lockstep (parse : JsonParse)
    (search fetch : Option String → ToolPayload) (model effort : String) :
    ∀ (rs : List AzureReply) (ss : List StreamReply),
      StreamAgrees parse rs ss →
      ∀ (e : Extracted) (inC : List InputItem) (reasC : List String)
        (accC : List ToolCall) (logC : List ToolInvocation)
        (inS : List InputItem) (evs : List SEvent) (accS : List ToolCall)
        (reasS : List String) (resp : String) (reas2 : List String)
        (acc2 : List ToolCall) (log2 : List ToolInvocation),
      contentConcat evs = e.responseText →
      (e.toolCalls ≠ [] → e.responseText = "") →
      chatLoop parse search fetch model effort rs
          ⟨inC, e.responseText, reasC, e.toolCalls, e.rawOutputItems, accC,
           logC⟩
        = ChatResult.complete resp reas2 acc2 log2 →
      ∃ evs2,
        streamResume parse search fetch model effort ss
            ⟨inS, evs, accS, reasS⟩ e = StreamRes.finished evs2
        ∧ contentConcat evs2 = resp := by
  intro rs ss hag
  induction hag with
  | nil =>
      intro e inC reasC accC logC inS evs accS reasS resp reas2 acc2 log2
        hconcat hzero hloop
      by_cases hemp : e.toolCalls.isEmpty
      · exact lockstep_done_case parse search fetch model effort [] [] e
          inC reasC accC logC inS evs accS reasS resp reas2 acc2 log2 hemp
          hconcat hloop
      · have hemp2 : e.toolCalls.isEmpty = false := by
          revert hemp; cases e.toolCalls.isEmpty <;> simp
        cases hf : e.toolCalls.find? isClarifyCall with
        | some c =>
            rw [chatLoop_branch_some parse search fetch model effort
              (chatBranch_clarify hf) []] at hloop
            cases hloop
        | none =>
            rw [show chatLoop parse search fetch model effort []
                ⟨inC, e.responseText, reasC, e.toolCalls, e.rawOutputItems,
                 accC, logC⟩ = ChatResult.outOfFuel from by
              simp only [chatLoop, @chatBranch_none_of model effort
                ⟨inC, e.responseText, reasC, e.toolCalls, e.rawOutputItems,
                 accC, logC⟩ hemp2 hf]] at hloop
            cases hloop
  | cons respX items rsT ssT h1 h2 h3 hrec ih =>
      intro e inC reasC accC logC inS evs accS reasS resp reas2 acc2 log2
        hconcat hzero hloop
      by_cases hemp : e.toolCalls.isEmpty
      · exact lockstep_done_case parse search fetch model effort
          (Except.ok respX :: rsT) (Except.ok items :: ssT) e
          inC reasC accC logC inS evs accS reasS resp reas2 acc2 log2 hemp
          hconcat hloop
      · have hemp2 : e.toolCalls.isEmpty = false := by
          revert hemp; cases e.toolCalls.isEmpty <;> simp
        have hne : e.toolCalls ≠ [] := by
          intro hh
          rw [hh] at hemp2
          cases hemp2
        have hz : e.responseText = "" := hzero hne
        cases hf : e.toolCalls.find? isClarifyCall with
        | some c =>
            rw [chatLoop_branch_some parse search fetch model effort
              (chatBranch_clarify hf) (Except.ok respX :: rsT)] at hloop
            cases hloop
        | none =>
            have hb : chatBranch model effort
                ⟨inC, e.responseText, reasC, e.toolCalls, e.rawOutputItems,
                 accC, logC⟩ = none := chatBranch_none_of hemp2 hf
            cases hex : extractResponse parse respX with
            | error m =>
                rw [chatLoop_exerr_step parse search fetch model effort
                  respX m rsT hb hex] at hloop
                cases hloop
            | ok e2 =>
                rw [chatLoop_step_ok parse search fetch model effort respX
                  rsT _ e2 hb hex] at hloop
                have hcq : contentConcat
                    ((evs ++ streamExecEvents search fetch e.toolCalls)
                      ++ (processStream items).emitted)
                    = e2.responseText := by
                  rw [contentConcat_append, contentConcat_append, hconcat,
                    hz, streamExecEvents_no_content, String.append_empty,
                    String.empty_append, processStream_contentConcat, h2,
                    extractResponse_ok_fields parse respX e2 hex]
                have hz2 : e2.toolCalls ≠ [] → e2.responseText = "" := by
                  intro hne2
                  rw [extractResponse_ok_fields parse respX e2 hex, ← h2]
                  exact h3 e2 hex hne2
                obtain ⟨evs2, hm, hc⟩ := ih e2 _ _ _ _
                  (inS ++ e.rawOutputItems.map InputItem.raw
                    ++ streamExecItems search fetch e.toolCalls)
                  ((evs ++ streamExecEvents search fetch e.toolCalls)
                    ++ (processStream items).emitted)
                  (accS ++ e.toolCalls)
                  (if (processStream items).currentReasoningText = ""
                    then reasS
                    else reasS ++ [(processStream items).currentReasoningText])
                  resp reas2 acc2 log2 hcq hz2 hloop
                refine ⟨evs2, ?_, hc⟩
                have hsb : streamBranch search fetch model effort
                    ⟨inS, evs, accS, reasS⟩ e
                    = Sum.inr ⟨inS ++ e.rawOutputItems.map InputItem.raw
                        ++ streamExecItems search fetch e.toolCalls,
                      evs ++ streamExecEvents search fetch e.toolCalls,
                      accS ++ e.toolCalls, reasS⟩ := by
                  rw [streamBranch,
                    if_neg (by rw [hemp2]; exact Bool.false_ne_true), hf]
                have hstep1 : streamResume parse search fetch model effort
                    (Except.ok items :: ssT) ⟨inS, evs, accS, reasS⟩ e
                    = streamLoopGo parse search fetch model effort
                        (Except.ok items :: ssT)
                        ⟨inS ++ e.rawOutputItems.map InputItem.raw
                          ++ streamExecItems search fetch e.toolCalls,
                         evs ++ streamExecEvents search fetch e.toolCalls,
                         accS ++ e.toolCalls, reasS⟩ := by
                  simp only [streamResume, hsb]
                rw [hstep1, streamLoopGo_ok_step parse search fetch model
                  effort items ssT _ respX e2 h1 hex]
                exact hm

/-- C7 (amended): for identical inputs and agreeing provider and tool
behavior, and provided every model response that still requests tool calls
streams no content text (`StreamAgrees`), a completing non-streaming turn
and the streaming turn agree: the streaming turn finishes and the
concatenation of its `content_delta` deltas equals the non-streaming
response text. Without the quietness proviso the equality fails, as the
counterexample shows: intermediate responses' deltas are forwarded but the
non-streaming loop discards intermediate text. -/
theorem streaming_concat_matches_response (parse : JsonParse)
    (search fetch : Option String → ToolPayload) (model effort : String)
    (replies : List AzureReply) (streams : List StreamReply)
    (input0 : List InputItem) (resp : String) (reas : List String)
    (acc : List ToolCall) (log : List ToolInvocation)
    (hag : StreamAgrees parse replies streams)
    (h : chatTurn parse search fetch model effort replies input0
      = ChatResult.complete resp reas acc log) :
    ∃ evs, streamTurn parse search fetch model effort streams input0
        = StreamRes.finished evs
      ∧ contentConcat evs = resp := by
  cases hag with
  | nil => simp [chatTurn] at h
  | cons resp1 items rsT ssT h1 h2 h3 hrec =>
      cases hex : extractResponse parse resp1 with
      | error m =>
          rw [show chatTurn parse search fetch model effort
              (Except.ok resp1 :: rsT) input0 = ChatResult.fatal m [] from by
            simp [chatTurn, hex]] at h
          cases h
      | ok e =>
          rw [show chatTurn parse search fetch model effort
              (Except.ok resp1 :: rsT) input0
            = chatLoop parse search fetch model effort rsT
                ⟨input0, e.responseText, e.reasoningSummary, e.toolCalls,
                 e.rawOutputItems, e.toolCalls, []⟩ from by
            simp [chatTurn, hex]] at h
          have hcq : contentConcat
              ([SEvent.start] ++ (processStream items).emitted)
              = e.responseText := by
            rw [contentConcat_append,
              show contentConcat [SEvent.start] = "" from rfl,
              String.empty_append, processStream_contentConcat, h2,
              extractResponse_ok_fields parse resp1 e hex]
          have hz : e.toolCalls ≠ [] → e.responseText = "" := by
            intro hne
            rw [extractResponse_ok_fields parse resp1 e hex, ← h2]
            exact h3 e hex hne
          obtain ⟨evs2, hm, hc⟩ := chat_stream_lockstep parse search fetch
            model effort rsT ssT hrec e input0 e.reasoningSummary
            e.toolCalls [] input0
            ([SEvent.start] ++ (processStream items).emitted) []
            (if (processStream items).currentReasoningText = "" then []
              else [] ++ [(processStream items).currentReasoningText])
            resp reas acc log hcq hz h
          refine ⟨evs2, ?_, hc⟩
          rw [show streamTurn parse search fetch model effort
              (Except.ok items :: ssT) input0
            = streamLoopGo parse search fetch model effort
                (Except.ok items :: ssT)
                ⟨input0, [SEvent.start], [], []⟩ from rfl,
            streamLoopGo_ok_step parse search fetch model effort items ssT
              _ resp1 e h1 hex]
          exact hm

/-- Witness for the C7 theorem on a concrete agreeing pair of runs: a
search-tool round followed by a final text response. -/
theorem streaming_concat_matches_response_witness :
    StreamAgrees parse0
      [Except.ok respSearchCall, Except.ok (respText "B")]
      [Except.ok [SSEItem.respDone respSearchCall],
       Except.ok [SSEItem.contentDelta (some "B"),
         SSEItem.respDone (respText "B")]]
    ∧ ∃ evs, streamTurn parse0 search0 fetch0 "m" "low"
        [Except.ok [SSEItem.respDone respSearchCall],
         Except.ok [SSEItem.contentDelta (some "B"),
           SSEItem.respDone (respText "B")]] []
        = StreamRes.finished evs
      ∧ contentConcat evs = "B" := by
  have hag : StreamAgrees parse0
      [Except.ok respSearchCall, Except.ok (respText "B")]
      [Except.ok [SSEItem.respDone respSearchCall],
       Except.ok [SSEItem.contentDelta (some "B"),
         SSEItem.respDone (respText "B")]] := by
    refine StreamAgrees.cons respSearchCall _ _ _ (by rfl) (by rfl) ?_ ?_
    · intro e hex hne
      rfl
    · refine StreamAgrees.cons (respText "B") _ _ _ (by rfl) (by rfl) ?_
        StreamAgrees.nil
      intro e hex hne
      exfalso
      rw [show extractResponse parse0 (respText "B")
          = Except.ok ⟨"B", [], [],
              [OutputItem.message [ContentPart.outputText "B"]].filter
                isRawItem⟩ from rfl] at hex
      cases hex
      exact hne rfl
  exact ⟨hag, streaming_concat_matches_response parse0 search0 fetch0 "m"
    "low" _ _ [] "B" [] [⟨"c1", "web_search", noArgs⟩]
    [ToolInvocation.searchInv none] hag (by decide)⟩

/-- Counterexample to C7 as stated: the provider behaviors agree (each
stream's final event carries the corresponding response and its deltas
concatenate to that response's text), yet the first response carries both
a `web_search` call and message text `A`; the streaming turn forwards
delta `A` and then `B`, concatenating to `AB`, while the equivalent
non-streaming call returns only `B`. -/
theorem intermediate_deltas_break_streaming_equality :
    chatTurn parse0 search0 fetch0 "m" "low"
        ([Except.ok respMixed, Except.ok (respText "B")] : List AzureReply)
        []
      = ChatResult.complete "B" [] [⟨"c1", "web_search", noArgs⟩]
          [ToolInvocation.searchInv none]
    ∧ (processStream [SSEItem.contentDelta (some "A"),
        SSEItem.respDone respMixed]).fullResponse = some respMixed
    ∧ (processStream [SSEItem.contentDelta (some "A"),
        SSEItem.respDone respMixed]).currentContentText = textOf respMixed
    ∧ (processStream [SSEItem.contentDelta (some "B"),
        SSEItem.respDone (respText "B")]).fullResponse
        = some (respText "B")
    ∧ (processStream [SSEItem.contentDelta (some "B"),
        SSEItem.respDone (respText "B")]).currentContentText
        = textOf (respText "B")
    ∧ streamTurn parse0 search0 fetch0 "m" "low"
        [Except.ok [SSEItem.contentDelta (some "A"),
          SSEItem.respDone respMixed],
         Except.ok [SSEItem.contentDelta (some "B"),
           SSEItem.respDone (respText "B")]] []
      = StreamRes.finished [SEvent.start, SEvent.contentDeltaEvt "A",
          SEvent.toolCallEvt "web_search" none,
          SEvent.toolResultEvt "web_search" 2, SEvent.contentDeltaEvt "B",
          SEvent.doneEvt [] [("web_search", "")]]
    ∧ contentConcat [SEvent.start, SEvent.contentDeltaEvt "A",
        SEvent.toolCallEvt "web_search" none,
        SEvent.toolResultEvt "web_search" 2, SEvent.contentDeltaEvt "B",
        SEvent.doneEvt [] [("web_search", "")]] = "AB"
    ∧ ("AB" : String) ≠ "B" := by
  refine ⟨by decide, by rfl, by rfl, by rfl, by rfl, by decide, by rfl,
    by decide⟩
